import Mathlib

/-!
Game.jsx: movement, collision and win condition.

A shallow embedding of `src/components/Game.jsx`.

* Coordinates are JavaScript numbers; every value the component ever stores is an
  integer, so they are embedded as `Int`.
* A key-down event is represented by the string in `e.key`.
* The React state of `Game` (`fireboyPos`, `watergirlPos`, `gameWon`) is an explicit
  record; one key-down event followed by the win-condition effect is `step`.
-/

set_option maxRecDepth 100000

namespace Game

/-- A position object with fields x and y (top-left corner of a character box). -/
structure Pos where
  x : Int
  y : Int
  deriving DecidableEq, Repr

/-- A rectangle object with fields x, y, width and height. -/
structure Rect where
  x : Int
  y : Int
  width : Int
  height : Int
  deriving DecidableEq, Repr

/-- The constant `obstacles`: a vertical barrier with a gap. -/
def obstacles : List Rect :=
  [ { x := 250, y := 0, width := 20, height := 150 },
    { x := 250, y := 200, width := 20, height := 300 } ]

/-- The function `isColliding(rect1, rect2)`. -/
def isColliding (rect1 rect2 : Rect) : Bool :=
  decide (rect1.x < rect2.x + rect2.width) &&
  decide (rect1.x + rect1.width > rect2.x) &&
  decide (rect1.y < rect2.y + rect2.height) &&
  decide (rect1.y + rect1.height > rect2.y)

/-- The React state of the component `Game`. -/
structure State where
  fireboyPos : Pos
  watergirlPos : Pos
  gameWon : Bool
  deriving DecidableEq, Repr

/-- The values passed to `useState`: the state the component is mounted with. -/
def initialState : State :=
  { fireboyPos := { x := 400, y := 400 },
    watergirlPos := { x := 50, y := 50 },
    gameWon := false }

/-- The constant `moveAmount`: pixels moved per key press. -/
def moveAmount : Int := 10

/-- The function `handleMove(pos, newX, newY)`. The `for` loop over `obstacles`
that returns `pos` at the first colliding obstacle is `List.any`. -/
def handleMove (pos : Pos) (newX newY : Int) : Pos :=
  let clampedX := max 0 (min newX (500 - 40))
  let clampedY := max 0 (min newY (500 - 40))
  let candidateRect : Rect := { x := clampedX, y := clampedY, width := 40, height := 40 }
  if obstacles.any (fun obs => isColliding candidateRect obs) then
    pos
  else
    { x := clampedX, y := clampedY }

/-- The method `toLowerCase` of a key string. Only its comparison with the
one-letter strings w, s, a, d is used, and on those it agrees with the
letter-wise lowering of the basic Latin capitals. -/
def toLowerCase (key : String) : String :=
  String.mk (key.data.map Char.toLower)

/-- The function `handleKeyDown(e)` with `key` the value of `e.key`: the state
after the position setter it calls (if any) has been applied. -/
def handleKeyDown (s : State) (key : String) : State :=
  if s.gameWon then s
  else if key = "ArrowUp" then
    { s with fireboyPos :=
        handleMove s.fireboyPos s.fireboyPos.x (s.fireboyPos.y - moveAmount) }
  else if key = "ArrowDown" then
    { s with fireboyPos :=
        handleMove s.fireboyPos s.fireboyPos.x (s.fireboyPos.y + moveAmount) }
  else if key = "ArrowLeft" then
    { s with fireboyPos :=
        handleMove s.fireboyPos (s.fireboyPos.x - moveAmount) s.fireboyPos.y }
  else if key = "ArrowRight" then
    { s with fireboyPos :=
        handleMove s.fireboyPos (s.fireboyPos.x + moveAmount) s.fireboyPos.y }
  else if toLowerCase key = "w" then
    { s with watergirlPos :=
        handleMove s.watergirlPos s.watergirlPos.x (s.watergirlPos.y - moveAmount) }
  else if toLowerCase key = "s" then
    { s with watergirlPos :=
        handleMove s.watergirlPos s.watergirlPos.x (s.watergirlPos.y + moveAmount) }
  else if toLowerCase key = "a" then
    { s with watergirlPos :=
        handleMove s.watergirlPos (s.watergirlPos.x - moveAmount) s.watergirlPos.y }
  else if toLowerCase key = "d" then
    { s with watergirlPos :=
        handleMove s.watergirlPos (s.watergirlPos.x + moveAmount) s.watergirlPos.y }
  else s

/-- The constant `doorArea` of the win-condition effect. -/
def doorArea : Rect := { x := 400, y := 400, width := 50, height := 50 }

/-- The function `isInsideDoor(pos)` of the win-condition effect. -/
def isInsideDoor (pos : Pos) : Bool :=
  decide (pos.x ≥ doorArea.x) &&
  decide (pos.x ≤ doorArea.x + doorArea.width - 40) &&
  decide (pos.y ≥ doorArea.y) &&
  decide (pos.y ≤ doorArea.y + doorArea.height - 40)

/-- The body of the win-condition effect: `setGameWon(true)` when both characters
are inside the door, nothing otherwise. -/
def winEffect (s : State) : State :=
  if isInsideDoor s.fireboyPos && isInsideDoor s.watergirlPos then
    { s with gameWon := true }
  else s

/-- One key-down event processed to completion: `handleKeyDown`, then the
win-condition effect. React runs the effect at mount and after every commit that
stored a new position object; a rejected move or an ignored key stores nothing, and
then the positions are the ones the effect has already seen, so running it once
more changes nothing in a state the component can be in between two events. -/
def step (s : State) (key : String) : State :=
  winEffect (handleKeyDown s key)

/-- The state after a finite sequence of key-down events. -/
def run (s : State) (keys : List String) : State :=
  keys.foldl step s

/-- The 40x40 box of a character at `pos`. -/
def charBox (pos : Pos) : Rect :=
  { x := pos.x, y := pos.y, width := 40, height := 40 }

/-- A position is clear when its box collides with no obstacle and both
coordinates lie in the interval from 0 to 460. -/
def Clear (pos : Pos) : Prop :=
  (∀ obs ∈ obstacles, isColliding (charBox pos) obs = false) ∧
  0 ≤ pos.x ∧ pos.x ≤ 460 ∧ 0 ≤ pos.y ∧ pos.y ≤ 460

instance (pos : Pos) : Decidable (Clear pos) := by
  unfold Clear; infer_instance

/-- Clamping a coordinate to the interval from 0 to 460, written as
min(max(v,0),460). -/
def clamp (v : Int) : Int := min (max v 0) 460

/-- The target point clamped coordinate-wise to the field. -/
def clampedTarget (newX newY : Int) : Pos :=
  { x := clamp newX, y := clamp newY }

/-- Some obstacle collides with the box of the character at `pos`. -/
def hitsObstacle (pos : Pos) : Prop :=
  ∃ obs ∈ obstacles, isColliding (charBox pos) obs = true

/-- The rectangle `inner` lies wholly inside the rectangle `outer`. -/
def containedIn (inner outer : Rect) : Prop :=
  outer.x ≤ inner.x ∧ inner.x + inner.width ≤ outer.x + outer.width ∧
  outer.y ≤ inner.y ∧ inner.y + inner.height ≤ outer.y + outer.height

/-- The top-left corner `pos` lies in the square from (400,400) to (410,410). -/
def inGoalCorner (pos : Pos) : Prop :=
  400 ≤ pos.x ∧ pos.x ≤ 410 ∧ 400 ≤ pos.y ∧ pos.y ≤ 410

/-- The flag equals the win test on the current positions. -/
def flagDerived (s : State) : Prop :=
  s.gameWon = (isInsideDoor s.fireboyPos && isInsideDoor s.watergirlPos)

/-- The four key strings that address character A. -/
def arrowKeys : List String := ["ArrowUp", "ArrowDown", "ArrowLeft", "ArrowRight"]

/-- The eight key strings that address character B: w, s, a, d in either case. -/
def letterKeys : List String := ["w", "W", "s", "S", "a", "A", "d", "D"]

/-- A state is reachable when some finite sequence of key-down events leads to it
from the initial state. -/
def Reachable (s : State) : Prop :=
  ∃ keys : List String, run initialState keys = s

/-- Both coordinates of `pos` are multiples of 10. -/
def Aligned (pos : Pos) : Prop :=
  pos.x % 10 = 0 ∧ pos.y % 10 = 0

/-- The position `new` is the position `old` displaced by exactly (dx, dy). -/
def movedBy (old new : Pos) (dx dy : Int) : Prop :=
  new.x = old.x + dx ∧ new.y = old.y + dy

/-- The target (newX, newY) is one step of `moveAmount` away from `pos` along one
axis, as in each branch of `handleKeyDown`. -/
def oneStepFrom (pos : Pos) (newX newY : Int) : Prop :=
  (newX = pos.x ∧ (newY = pos.y - moveAmount ∨ newY = pos.y + moveAmount)) ∨
  (newY = pos.y ∧ (newX = pos.x - moveAmount ∨ newX = pos.x + moveAmount))

/-! ## Basic facts about `handleMove` -/

theorem clamp_eq_code (v : Int) : max 0 (min v (500 - 40)) = clamp v := by
  unfold clamp; omega

theorem clamp_bounds (v : Int) : 0 ≤ clamp v ∧ clamp v ≤ 460 := by
  unfold clamp; omega

theorem handleMove_eq (pos : Pos) (newX newY : Int) :
    handleMove pos newX newY =
      if obstacles.any (fun obs => isColliding (charBox (clampedTarget newX newY)) obs)
      then pos else clampedTarget newX newY := by
  simp only [handleMove, clamp_eq_code, charBox, clampedTarget]

theorem any_obstacle_iff (pos : Pos) :
    obstacles.any (fun obs => isColliding (charBox pos) obs) = true ↔ hitsObstacle pos := by
  simp [hitsObstacle]

theorem any_obstacle_false_iff (pos : Pos) :
    obstacles.any (fun obs => isColliding (charBox pos) obs) = false ↔
      ∀ obs ∈ obstacles, isColliding (charBox pos) obs = false := by
  simp

theorem handleMove_rejected (pos : Pos) (newX newY : Int)
    (h : hitsObstacle (clampedTarget newX newY)) : handleMove pos newX newY = pos := by
  rw [handleMove_eq, if_pos ((any_obstacle_iff _).2 h)]

theorem handleMove_accepted (pos : Pos) (newX newY : Int)
    (h : ∀ obs ∈ obstacles, isColliding (charBox (clampedTarget newX newY)) obs = false) :
    handleMove pos newX newY = clampedTarget newX newY := by
  rw [handleMove_eq, (any_obstacle_false_iff _).2 h]; rfl

theorem handleMove_clear (pos : Pos) (newX newY : Int) (h : Clear pos) :
    Clear (handleMove pos newX newY) := by
  rw [handleMove_eq]
  split
  · exact h
  · rename_i hany
    have hfree := (any_obstacle_false_iff _).1 (by simpa using hany)
    exact ⟨hfree, (clamp_bounds newX).1, (clamp_bounds newX).2,
      (clamp_bounds newY).1, (clamp_bounds newY).2⟩

theorem clear_iff (pos : Pos) :
    Clear pos ↔
      isColliding (charBox pos) { x := 250, y := 0, width := 20, height := 150 } = false ∧
      isColliding (charBox pos) { x := 250, y := 200, width := 20, height := 300 } = false ∧
      0 ≤ pos.x ∧ pos.x ≤ 460 ∧ 0 ≤ pos.y ∧ pos.y ≤ 460 := by
  simp [Clear, obstacles, and_assoc]

/-! ## Basic facts about `handleKeyDown`, `winEffect` and `step` -/

theorem winEffect_fireboyPos (s : State) : (winEffect s).fireboyPos = s.fireboyPos := by
  unfold winEffect; split <;> rfl

theorem winEffect_watergirlPos (s : State) : (winEffect s).watergirlPos = s.watergirlPos := by
  unfold winEffect; split <;> rfl

theorem step_fireboyPos (s : State) (key : String) :
    (step s key).fireboyPos = (handleKeyDown s key).fireboyPos :=
  winEffect_fireboyPos _

theorem step_watergirlPos (s : State) (key : String) :
    (step s key).watergirlPos = (handleKeyDown s key).watergirlPos :=
  winEffect_watergirlPos _

/-- Case analysis on the branch `handleKeyDown` takes: it returns the state as it
is, or replaces the position of one character by a result of `handleMove`. -/
theorem handleKeyDown_cases (P : State → Prop) (s : State) (key : String)
    (hsame : P s)
    (hA : ∀ newX newY, s.gameWon = false →
      P { s with fireboyPos := handleMove s.fireboyPos newX newY })
    (hB : ∀ newX newY, s.gameWon = false →
      P { s with watergirlPos := handleMove s.watergirlPos newX newY }) :
    P (handleKeyDown s key) := by
  unfold handleKeyDown
  by_cases h0 : s.gameWon = true
  · rw [if_pos h0]; exact hsame
  have hf : s.gameWon = false := by simpa using h0
  rw [if_neg h0]
  by_cases h1 : key = "ArrowUp"
  · rw [if_pos h1]; exact hA _ _ hf
  rw [if_neg h1]
  by_cases h2 : key = "ArrowDown"
  · rw [if_pos h2]; exact hA _ _ hf
  rw [if_neg h2]
  by_cases h3 : key = "ArrowLeft"
  · rw [if_pos h3]; exact hA _ _ hf
  rw [if_neg h3]
  by_cases h4 : key = "ArrowRight"
  · rw [if_pos h4]; exact hA _ _ hf
  rw [if_neg h4]
  by_cases h5 : toLowerCase key = "w"
  · rw [if_pos h5]; exact hB _ _ hf
  rw [if_neg h5]
  by_cases h6 : toLowerCase key = "s"
  · rw [if_pos h6]; exact hB _ _ hf
  rw [if_neg h6]
  by_cases h7 : toLowerCase key = "a"
  · rw [if_pos h7]; exact hB _ _ hf
  rw [if_neg h7]
  by_cases h8 : toLowerCase key = "d"
  · rw [if_pos h8]; exact hB _ _ hf
  rw [if_neg h8]
  exact hsame

theorem handleKeyDown_fireboyPos_cases (s : State) (key : String) :
    (handleKeyDown s key).fireboyPos = s.fireboyPos ∨
      ∃ newX newY, (handleKeyDown s key).fireboyPos = handleMove s.fireboyPos newX newY :=
  handleKeyDown_cases
    (fun t => t.fireboyPos = s.fireboyPos ∨
      ∃ newX newY, t.fireboyPos = handleMove s.fireboyPos newX newY)
    s key (Or.inl rfl) (fun _ _ _ => Or.inr ⟨_, _, rfl⟩) (fun _ _ _ => Or.inl rfl)

theorem handleKeyDown_watergirlPos_cases (s : State) (key : String) :
    (handleKeyDown s key).watergirlPos = s.watergirlPos ∨
      ∃ newX newY, (handleKeyDown s key).watergirlPos = handleMove s.watergirlPos newX newY :=
  handleKeyDown_cases
    (fun t => t.watergirlPos = s.watergirlPos ∨
      ∃ newX newY, t.watergirlPos = handleMove s.watergirlPos newX newY)
    s key (Or.inl rfl) (fun _ _ _ => Or.inl rfl) (fun _ _ _ => Or.inr ⟨_, _, rfl⟩)

theorem handleKeyDown_gameWon (s : State) (key : String) :
    (handleKeyDown s key).gameWon = s.gameWon :=
  handleKeyDown_cases (fun t => t.gameWon = s.gameWon) s key rfl
    (fun _ _ _ => rfl) (fun _ _ _ => rfl)

theorem run_nil (s : State) : run s [] = s := rfl

theorem run_cons (s : State) (key : String) (keys : List String) :
    run s (key :: keys) = run (step s key) keys := rfl

theorem run_append (s : State) (ks₁ ks₂ : List String) :
    run s (ks₁ ++ ks₂) = run (run s ks₁) ks₂ := by
  simp [run, List.foldl_append]

/-- A property of states that holds initially and is kept by every key-down event
holds after every finite sequence of events. -/
theorem run_induction (P : State → Prop) (hstep : ∀ s key, P s → P (step s key)) :
    ∀ (keys : List String) (s : State), P s → P (run s keys) := by
  intro keys
  induction keys with
  | nil => intro s hs; exact hs
  | cons key keys ih => intro s hs; exact ih _ (hstep s key hs)

theorem step_clear (s : State) (key : String)
    (h : Clear s.fireboyPos ∧ Clear s.watergirlPos) :
    Clear (step s key).fireboyPos ∧ Clear (step s key).watergirlPos := by
  rw [step_fireboyPos, step_watergirlPos]
  constructor
  · rcases handleKeyDown_fireboyPos_cases s key with h1 | ⟨nx, ny, h1⟩
    · rw [h1]; exact h.1
    · rw [h1]; exact handleMove_clear _ _ _ h.1
  · rcases handleKeyDown_watergirlPos_cases s key with h1 | ⟨nx, ny, h1⟩
    · rw [h1]; exact h.2
    · rw [h1]; exact handleMove_clear _ _ _ h.2

theorem run_clear (keys : List String) :
    Clear (run initialState keys).fireboyPos ∧ Clear (run initialState keys).watergirlPos :=
  run_induction (fun s => Clear s.fireboyPos ∧ Clear s.watergirlPos) step_clear keys
    initialState ⟨by decide, by decide⟩

theorem handleKeyDown_won (s : State) (key : String) (h : s.gameWon = true) :
    handleKeyDown s key = s := by
  unfold handleKeyDown; rw [if_pos h]

theorem winEffect_won (s : State) (h : s.gameWon = true) : winEffect s = s := by
  unfold winEffect
  split
  · cases s; simp only at h; subst h; rfl
  · rfl

theorem winEffect_gameWon (s : State) :
    (winEffect s).gameWon =
      (s.gameWon || (isInsideDoor s.fireboyPos && isInsideDoor s.watergirlPos)) := by
  unfold winEffect
  split
  · rename_i h; simp [h]
  · rename_i h; simp [h]

theorem step_won (s : State) (key : String) (h : s.gameWon = true) : step s key = s := by
  unfold step; rw [handleKeyDown_won s key h, winEffect_won s h]

theorem run_won (keys : List String) (s : State) (h : s.gameWon = true) : run s keys = s := by
  induction keys with
  | nil => rfl
  | cons key keys ih => rw [run_cons, step_won s key h, ih]

theorem isInsideDoor_iff (pos : Pos) : isInsideDoor pos = true ↔ inGoalCorner pos := by
  simp only [isInsideDoor, doorArea, inGoalCorner, Bool.and_eq_true, decide_eq_true_eq]
  constructor
  · rintro ⟨⟨⟨h1, h2⟩, h3⟩, h4⟩; exact ⟨by omega, by omega, by omega, by omega⟩
  · rintro ⟨h1, h2, h3, h4⟩; exact ⟨⟨⟨by omega, by omega⟩, by omega⟩, by omega⟩

theorem step_flagDerived (s : State) (key : String) (h : flagDerived s) :
    flagDerived (step s key) := by
  by_cases hw : s.gameWon = true
  · rw [step_won s key hw]; exact h
  · have hf : s.gameWon = false := by simpa using hw
    unfold flagDerived step
    rw [winEffect_gameWon, winEffect_fireboyPos, winEffect_watergirlPos,
      handleKeyDown_gameWon, hf, Bool.false_or]

theorem run_flagDerived (keys : List String) : flagDerived (run initialState keys) :=
  run_induction flagDerived step_flagDerived keys initialState (by unfold flagDerived; decide)

/-! ## Key strings -/

theorem toLower_cases (c : Char) :
    c.toLower = c ∨ (65 ≤ c.toNat ∧ c.toNat ≤ 90 ∧ c.toLower = Char.ofNat (c.toNat + 32)) := by
  unfold Char.toLower
  by_cases h : c.toNat ≥ 65 ∧ c.toNat ≤ 90
  · right; exact ⟨h.1, h.2, by simp only [h, and_self, if_true]⟩
  · left; simp only [h, if_false]

theorem toLower_eq_w (c : Char) (h : c.toLower = 'w') : c = 'w' ∨ c = 'W' := by
  rcases toLower_cases c with h1 | ⟨h65, h90, h2⟩
  · left; rw [← h1]; exact h
  · right
    have hc := (Char.ofNat_toNat c).symm
    rw [h2] at h
    generalize c.toNat = n at *
    interval_cases n <;> first | (exact absurd h (by decide)) | (rw [hc])

theorem toLower_eq_s (c : Char) (h : c.toLower = 's') : c = 's' ∨ c = 'S' := by
  rcases toLower_cases c with h1 | ⟨h65, h90, h2⟩
  · left; rw [← h1]; exact h
  · right
    have hc := (Char.ofNat_toNat c).symm
    rw [h2] at h
    generalize c.toNat = n at *
    interval_cases n <;> first | (exact absurd h (by decide)) | (rw [hc])

theorem toLower_eq_a (c : Char) (h : c.toLower = 'a') : c = 'a' ∨ c = 'A' := by
  rcases toLower_cases c with h1 | ⟨h65, h90, h2⟩
  · left; rw [← h1]; exact h
  · right
    have hc := (Char.ofNat_toNat c).symm
    rw [h2] at h
    generalize c.toNat = n at *
    interval_cases n <;> first | (exact absurd h (by decide)) | (rw [hc])

theorem toLower_eq_d (c : Char) (h : c.toLower = 'd') : c = 'd' ∨ c = 'D' := by
  rcases toLower_cases c with h1 | ⟨h65, h90, h2⟩
  · left; rw [← h1]; exact h
  · right
    have hc := (Char.ofNat_toNat c).symm
    rw [h2] at h
    generalize c.toNat = n at *
    interval_cases n <;> first | (exact absurd h (by decide)) | (rw [hc])

theorem toLowerCase_eq_singleton (key : String) (t : Char)
    (h : toLowerCase key = String.mk [t]) : ∃ c, key = String.mk [c] ∧ c.toLower = t := by
  unfold toLowerCase at h
  have hdata : key.data.map Char.toLower = [t] := by
    have := congrArg String.data h
    simpa using this
  cases key with
  | mk data =>
    simp only at hdata
    match data, hdata with
    | [c], hd =>
      refine ⟨c, rfl, ?_⟩
      simpa using hd

theorem toLowerCase_eq_w (key : String) :
    toLowerCase key = "w" ↔ key = "w" ∨ key = "W" := by
  constructor
  · intro h
    obtain ⟨c, hkey, hc⟩ := toLowerCase_eq_singleton key 'w' h
    rcases toLower_eq_w c hc with rfl | rfl
    · exact Or.inl hkey
    · exact Or.inr hkey
  · rintro (rfl | rfl) <;> decide

theorem toLowerCase_eq_s (key : String) :
    toLowerCase key = "s" ↔ key = "s" ∨ key = "S" := by
  constructor
  · intro h
    obtain ⟨c, hkey, hc⟩ := toLowerCase_eq_singleton key 's' h
    rcases toLower_eq_s c hc with rfl | rfl
    · exact Or.inl hkey
    · exact Or.inr hkey
  · rintro (rfl | rfl) <;> decide

theorem toLowerCase_eq_a (key : String) :
    toLowerCase key = "a" ↔ key = "a" ∨ key = "A" := by
  constructor
  · intro h
    obtain ⟨c, hkey, hc⟩ := toLowerCase_eq_singleton key 'a' h
    rcases toLower_eq_a c hc with rfl | rfl
    · exact Or.inl hkey
    · exact Or.inr hkey
  · rintro (rfl | rfl) <;> decide

theorem toLowerCase_eq_d (key : String) :
    toLowerCase key = "d" ↔ key = "d" ∨ key = "D" := by
  constructor
  · intro h
    obtain ⟨c, hkey, hc⟩ := toLowerCase_eq_singleton key 'd' h
    rcases toLower_eq_d c hc with rfl | rfl
    · exact Or.inl hkey
    · exact Or.inr hkey
  · rintro (rfl | rfl) <;> decide

/-! ## The branches of `handleKeyDown` -/

theorem handleKeyDown_arrowUp (s : State) (h : s.gameWon = false) :
    handleKeyDown s "ArrowUp" =
      { s with fireboyPos := handleMove s.fireboyPos s.fireboyPos.x (s.fireboyPos.y - moveAmount) } := by
  simp [handleKeyDown, h]

theorem handleKeyDown_arrowDown (s : State) (h : s.gameWon = false) :
    handleKeyDown s "ArrowDown" =
      { s with fireboyPos := handleMove s.fireboyPos s.fireboyPos.x (s.fireboyPos.y + moveAmount) } := by
  simp [handleKeyDown, h]

theorem handleKeyDown_arrowLeft (s : State) (h : s.gameWon = false) :
    handleKeyDown s "ArrowLeft" =
      { s with fireboyPos := handleMove s.fireboyPos (s.fireboyPos.x - moveAmount) s.fireboyPos.y } := by
  simp [handleKeyDown, h]

theorem handleKeyDown_arrowRight (s : State) (h : s.gameWon = false) :
    handleKeyDown s "ArrowRight" =
      { s with fireboyPos := handleMove s.fireboyPos (s.fireboyPos.x + moveAmount) s.fireboyPos.y } := by
  simp [handleKeyDown, h]

theorem handleKeyDown_w (s : State) (key : String) (hk : key = "w" ∨ key = "W")
    (h : s.gameWon = false) :
    handleKeyDown s key =
      { s with watergirlPos := handleMove s.watergirlPos s.watergirlPos.x (s.watergirlPos.y - moveAmount) } := by
  rcases hk with rfl | rfl <;> simp [handleKeyDown, h, toLowerCase]

theorem handleKeyDown_s (s : State) (key : String) (hk : key = "s" ∨ key = "S")
    (h : s.gameWon = false) :
    handleKeyDown s key =
      { s with watergirlPos := handleMove s.watergirlPos s.watergirlPos.x (s.watergirlPos.y + moveAmount) } := by
  rcases hk with rfl | rfl <;> simp [handleKeyDown, h, toLowerCase]

theorem handleKeyDown_a (s : State) (key : String) (hk : key = "a" ∨ key = "A")
    (h : s.gameWon = false) :
    handleKeyDown s key =
      { s with watergirlPos := handleMove s.watergirlPos (s.watergirlPos.x - moveAmount) s.watergirlPos.y } := by
  rcases hk with rfl | rfl <;> simp [handleKeyDown, h, toLowerCase]

theorem handleKeyDown_d (s : State) (key : String) (hk : key = "d" ∨ key = "D")
    (h : s.gameWon = false) :
    handleKeyDown s key =
      { s with watergirlPos := handleMove s.watergirlPos (s.watergirlPos.x + moveAmount) s.watergirlPos.y } := by
  rcases hk with rfl | rfl <;> simp [handleKeyDown, h, toLowerCase]

theorem handleKeyDown_other (s : State) (key : String)
    (hA : key ∉ arrowKeys) (hB : key ∉ letterKeys) : handleKeyDown s key = s := by
  simp only [arrowKeys, letterKeys, List.mem_cons, List.mem_singleton, List.not_mem_nil,
    not_or, or_false] at hA hB
  obtain ⟨a1, a2, a3, a4⟩ := hA
  obtain ⟨b1, b2, b3, b4, b5, b6, b7, b8⟩ := hB
  have hw : ¬ toLowerCase key = "w" := fun h =>
    ((toLowerCase_eq_w key).1 h).elim b1 b2
  have hs : ¬ toLowerCase key = "s" := fun h =>
    ((toLowerCase_eq_s key).1 h).elim b3 b4
  have ha : ¬ toLowerCase key = "a" := fun h =>
    ((toLowerCase_eq_a key).1 h).elim b5 b6
  have hd : ¬ toLowerCase key = "d" := fun h =>
    ((toLowerCase_eq_d key).1 h).elim b7 b8
  unfold handleKeyDown
  rw [if_neg a1, if_neg a2, if_neg a3, if_neg a4, if_neg hw, if_neg hs, if_neg ha, if_neg hd]
  exact ite_self s

theorem handleKeyDown_fireboyPos_of_not_arrow (s : State) (key : String)
    (hA : key ∉ arrowKeys) : (handleKeyDown s key).fireboyPos = s.fireboyPos := by
  simp only [arrowKeys, List.mem_cons, List.mem_singleton, List.not_mem_nil,
    not_or, or_false] at hA
  obtain ⟨a1, a2, a3, a4⟩ := hA
  unfold handleKeyDown
  rw [if_neg a1, if_neg a2, if_neg a3, if_neg a4]
  repeat' split
  all_goals rfl

theorem handleKeyDown_one_unchanged (s : State) (key : String) :
    (handleKeyDown s key).fireboyPos = s.fireboyPos ∨
      (handleKeyDown s key).watergirlPos = s.watergirlPos :=
  handleKeyDown_cases
    (fun t => t.fireboyPos = s.fireboyPos ∨ t.watergirlPos = s.watergirlPos)
    s key (Or.inl rfl) (fun _ _ _ => Or.inr rfl) (fun _ _ _ => Or.inl rfl)

theorem handleMove_x_cases (pos : Pos) (newX newY : Int) :
    (handleMove pos newX newY).x = pos.x ∨ (handleMove pos newX newY).x = clamp newX := by
  rw [handleMove_eq]
  split
  · exact Or.inl rfl
  · exact Or.inr rfl

/-- Left and up keys of character B alone, in any number and order, keep B in the
strip x ≤ 50 and the game unsolved. -/
theorem left_up_keys_never_win (keys : List String) :
    ∀ s : State, (∀ key ∈ keys, key = "a" ∨ key = "w") →
      s.gameWon = false → s.watergirlPos.x ≤ 50 →
      (run s keys).gameWon = false ∧ (run s keys).watergirlPos.x ≤ 50 := by
  induction keys with
  | nil => intro s _ hw hx; exact ⟨hw, hx⟩
  | cons key keys ih =>
    intro s hkeys hw hx
    rw [run_cons]
    have hrest : ∀ k ∈ keys, k = "a" ∨ k = "w" := fun k hk =>
      hkeys k (List.mem_cons_of_mem _ hk)
    have hstepx : (step s key).watergirlPos.x ≤ 50 := by
      rw [step_watergirlPos]
      rcases hkeys key (List.mem_cons_self _ _) with rfl | rfl
      · rw [handleKeyDown_a s "a" (Or.inl rfl) hw]
        rcases handleMove_x_cases s.watergirlPos (s.watergirlPos.x - moveAmount)
          s.watergirlPos.y with h | h
        · rw [h]; exact hx
        · rw [h]; simp only [clamp, moveAmount]; omega
      · rw [handleKeyDown_w s "w" (Or.inl rfl) hw]
        rcases handleMove_x_cases s.watergirlPos s.watergirlPos.x
          (s.watergirlPos.y - moveAmount) with h | h
        · rw [h]; exact hx
        · rw [h]; simp only [clamp]; omega
    have hstepw : (step s key).gameWon = false := by
      have hout : isInsideDoor (step s key).watergirlPos = false := by
        rw [Bool.eq_false_iff, Ne, isInsideDoor_iff]
        intro hin
        have := hin.1
        omega
      have := winEffect_gameWon (handleKeyDown s key)
      rw [handleKeyDown_gameWon, hw, ← step_watergirlPos, hout] at this
      simpa [step] using this
    exact ih _ hrest hstepw hstepx

/-- The two plain orders of 35 right-steps and 35 down-steps of character B are
stopped by the barrier: B has to pass through the gap. -/
theorem right_down_plain_orders_blocked :
    (run initialState (List.replicate 35 "d" ++ List.replicate 35 "s")).watergirlPos
      = { x := 210, y := 400 } ∧
    (run initialState (List.replicate 35 "s" ++ List.replicate 35 "d")).watergirlPos
      = { x := 210, y := 400 } := by
  decide

/-! ## Steps on the grid of multiples of 10 -/

/-- Case analysis on the branch `handleKeyDown` takes, keeping the target of the
move: one step of `moveAmount` along one axis. -/
theorem handleKeyDown_step_cases (P : State → Prop) (s : State) (key : String)
    (hsame : P s)
    (hA : ∀ newX newY, s.gameWon = false → oneStepFrom s.fireboyPos newX newY →
      P { s with fireboyPos := handleMove s.fireboyPos newX newY })
    (hB : ∀ newX newY, s.gameWon = false → oneStepFrom s.watergirlPos newX newY →
      P { s with watergirlPos := handleMove s.watergirlPos newX newY }) :
    P (handleKeyDown s key) := by
  unfold handleKeyDown
  by_cases h0 : s.gameWon = true
  · rw [if_pos h0]; exact hsame
  have hf : s.gameWon = false := by simpa using h0
  rw [if_neg h0]
  by_cases h1 : key = "ArrowUp"
  · rw [if_pos h1]; exact hA _ _ hf (Or.inl ⟨rfl, Or.inl rfl⟩)
  rw [if_neg h1]
  by_cases h2 : key = "ArrowDown"
  · rw [if_pos h2]; exact hA _ _ hf (Or.inl ⟨rfl, Or.inr rfl⟩)
  rw [if_neg h2]
  by_cases h3 : key = "ArrowLeft"
  · rw [if_pos h3]; exact hA _ _ hf (Or.inr ⟨rfl, Or.inl rfl⟩)
  rw [if_neg h3]
  by_cases h4 : key = "ArrowRight"
  · rw [if_pos h4]; exact hA _ _ hf (Or.inr ⟨rfl, Or.inr rfl⟩)
  rw [if_neg h4]
  by_cases h5 : toLowerCase key = "w"
  · rw [if_pos h5]; exact hB _ _ hf (Or.inl ⟨rfl, Or.inl rfl⟩)
  rw [if_neg h5]
  by_cases h6 : toLowerCase key = "s"
  · rw [if_pos h6]; exact hB _ _ hf (Or.inl ⟨rfl, Or.inr rfl⟩)
  rw [if_neg h6]
  by_cases h7 : toLowerCase key = "a"
  · rw [if_pos h7]; exact hB _ _ hf (Or.inr ⟨rfl, Or.inl rfl⟩)
  rw [if_neg h7]
  by_cases h8 : toLowerCase key = "d"
  · rw [if_pos h8]; exact hB _ _ hf (Or.inr ⟨rfl, Or.inr rfl⟩)
  rw [if_neg h8]
  exact hsame

theorem clamp_aligned (v : Int) (h : v % 10 = 0) : clamp v % 10 = 0 := by
  unfold clamp; omega

theorem handleMove_aligned (pos : Pos) (newX newY : Int) (hp : Aligned pos)
    (ht : oneStepFrom pos newX newY) : Aligned (handleMove pos newX newY) := by
  rw [handleMove_eq]
  split
  · exact hp
  · obtain ⟨hx, hy⟩ := hp
    unfold oneStepFrom moveAmount at ht
    exact ⟨clamp_aligned newX (by omega), clamp_aligned newY (by omega)⟩

/-- From an aligned position inside the field, a move of one step is either
refused (the position stays) or carried out in full. -/
theorem handleMove_whole_step (pos : Pos) (newX newY : Int) (hp : Aligned pos)
    (hb : 0 ≤ pos.x ∧ pos.x ≤ 460 ∧ 0 ≤ pos.y ∧ pos.y ≤ 460)
    (ht : oneStepFrom pos newX newY) :
    handleMove pos newX newY = pos ∨
      handleMove pos newX newY = { x := newX, y := newY } := by
  rw [handleMove_eq]
  split
  · exact Or.inl rfl
  · obtain ⟨hx, hy⟩ := hp
    unfold oneStepFrom moveAmount at ht
    cases pos with
    | mk px py =>
      simp only [clampedTarget, clamp, Pos.mk.injEq] at *
      omega

theorem step_aligned (s : State) (key : String)
    (h : Aligned s.fireboyPos ∧ Aligned s.watergirlPos) :
    Aligned (step s key).fireboyPos ∧ Aligned (step s key).watergirlPos := by
  rw [step_fireboyPos, step_watergirlPos]
  exact handleKeyDown_step_cases
    (fun t => Aligned t.fireboyPos ∧ Aligned t.watergirlPos) s key h
    (fun newX newY _ ht => ⟨handleMove_aligned _ _ _ h.1 ht, h.2⟩)
    (fun newX newY _ ht => ⟨h.1, handleMove_aligned _ _ _ h.2 ht⟩)

theorem run_aligned (keys : List String) :
    Aligned (run initialState keys).fireboyPos ∧
      Aligned (run initialState keys).watergirlPos :=
  run_induction (fun s => Aligned s.fireboyPos ∧ Aligned s.watergirlPos) step_aligned keys
    initialState ⟨by unfold Aligned; decide, by unfold Aligned; decide⟩

theorem reachable_clear_aligned (s : State) (h : Reachable s) :
    (Clear s.fireboyPos ∧ Aligned s.fireboyPos) ∧
      (Clear s.watergirlPos ∧ Aligned s.watergirlPos) := by
  obtain ⟨keys, rfl⟩ := h
  exact ⟨⟨(run_clear keys).1, (run_aligned keys).1⟩, ⟨(run_clear keys).2, (run_aligned keys).2⟩⟩

theorem whole_step_moved (pos : Pos) (newX newY dx dy : Int)
    (hx : newX = pos.x + dx) (hy : newY = pos.y + dy)
    (h : handleMove pos newX newY = pos ∨
      handleMove pos newX newY = { x := newX, y := newY }) :
    handleMove pos newX newY = pos ∨ movedBy pos (handleMove pos newX newY) dx dy := by
  rcases h with h | h
  · exact Or.inl h
  · right; rw [h]; exact ⟨hx, hy⟩

theorem isColliding_comm (r1 r2 : Rect) : isColliding r1 r2 = isColliding r2 r1 := by
  rw [Bool.eq_iff_iff]
  simp only [isColliding, Bool.and_eq_true, decide_eq_true_eq]
  constructor
  · rintro ⟨⟨⟨h1, h2⟩, h3⟩, h4⟩; exact ⟨⟨⟨h2, h1⟩, h4⟩, h3⟩
  · rintro ⟨⟨⟨h1, h2⟩, h3⟩, h4⟩; exact ⟨⟨⟨h2, h1⟩, h4⟩, h3⟩

theorem isColliding_false_of_apart (r1 r2 : Rect)
    (h : r1.x + r1.width ≤ r2.x ∨ r2.x + r2.width ≤ r1.x ∨
      r1.y + r1.height ≤ r2.y ∨ r2.y + r2.height ≤ r1.y) :
    isColliding r1 r2 = false := by
  rw [Bool.eq_false_iff]
  intro hc
  simp only [isColliding, Bool.and_eq_true, decide_eq_true_eq] at hc
  omega

theorem beside_barrier_free (x newY : Int) (hx : x = 210 ∨ x = 270) :
    ∀ obs ∈ obstacles, isColliding (charBox (clampedTarget x newY)) obs = false := by
  have hc : clamp x = x := by unfold clamp; omega
  intro obs hobs
  apply isColliding_false_of_apart
  simp only [obstacles, List.mem_cons, List.mem_singleton, List.not_mem_nil, or_false] at hobs
  rcases hobs with rfl | rfl <;> simp only [charBox, clampedTarget, hc] <;> omega

theorem clear_in_barrier_column (pos : Pos) (hc : Clear pos) (ha : Aligned pos)
    (h1 : 210 < pos.x) (h2 : pos.x < 270) :
    (pos.y = 150 ∨ pos.y = 160) ∧ 150 ≤ pos.y ∧ pos.y + 40 ≤ 200 := by
  obtain ⟨hf1, hf2, _, _, hy0, hy1⟩ := (clear_iff pos).1 hc
  obtain ⟨_, hay⟩ := ha
  rw [Bool.eq_false_iff] at hf1 hf2
  simp only [isColliding, charBox, Bool.and_eq_true, decide_eq_true_eq, ne_eq, not_and,
    not_lt] at hf1 hf2
  omega

/-- From a clear, aligned position a one-step move with displacement (dx, dy)
either leaves the position or displaces it by exactly (dx, dy). -/
theorem handleMove_stay_or_moved (pos : Pos) (hc : Clear pos) (ha : Aligned pos)
    (newX newY dx dy : Int) (hx : newX = pos.x + dx) (hy : newY = pos.y + dy)
    (ht : oneStepFrom pos newX newY) :
    handleMove pos newX newY = pos ∨ movedBy pos (handleMove pos newX newY) dx dy :=
  whole_step_moved pos newX newY dx dy hx hy (handleMove_whole_step pos newX newY ha hc.2 ht)

/-- A key whose lowered form is none of w, s, a, d is none of the eight letter
keys. -/
theorem lowered_not_letter (key : String) (h : toLowerCase key ∉ ["w", "s", "a", "d"]) :
    key ∉ letterKeys := by
  simp only [List.mem_cons, List.mem_singleton, List.not_mem_nil, not_or, or_false] at h
  obtain ⟨hw, hs, ha, hd⟩ := h
  simp only [letterKeys, List.mem_cons, List.mem_singleton, List.not_mem_nil, not_or,
    or_false]
  exact ⟨fun e => hw ((toLowerCase_eq_w key).2 (Or.inl e)),
    fun e => hw ((toLowerCase_eq_w key).2 (Or.inr e)),
    fun e => hs ((toLowerCase_eq_s key).2 (Or.inl e)),
    fun e => hs ((toLowerCase_eq_s key).2 (Or.inr e)),
    fun e => ha ((toLowerCase_eq_a key).2 (Or.inl e)),
    fun e => ha ((toLowerCase_eq_a key).2 (Or.inr e)),
    fun e => hd ((toLowerCase_eq_d key).2 (Or.inl e)),
    fun e => hd ((toLowerCase_eq_d key).2 (Or.inr e))⟩

/-! ## Claims -/

/-- C1. In every state reached from the initial state by a finite sequence of
key-down events, the box of each character collides with neither obstacle
(250,0,20,150) and (250,200,20,300), and both coordinates of each character lie
between 0 and 460. -/
theorem reachable_positions_clear (keys : List String) :
    (isColliding (charBox (run initialState keys).fireboyPos)
        { x := 250, y := 0, width := 20, height := 150 } = false ∧
      isColliding (charBox (run initialState keys).fireboyPos)
        { x := 250, y := 200, width := 20, height := 300 } = false ∧
      0 ≤ (run initialState keys).fireboyPos.x ∧ (run initialState keys).fireboyPos.x ≤ 460 ∧
      0 ≤ (run initialState keys).fireboyPos.y ∧ (run initialState keys).fireboyPos.y ≤ 460) ∧
    (isColliding (charBox (run initialState keys).watergirlPos)
        { x := 250, y := 0, width := 20, height := 150 } = false ∧
      isColliding (charBox (run initialState keys).watergirlPos)
        { x := 250, y := 200, width := 20, height := 300 } = false ∧
      0 ≤ (run initialState keys).watergirlPos.x ∧ (run initialState keys).watergirlPos.x ≤ 460 ∧
      0 ≤ (run initialState keys).watergirlPos.y ∧ (run initialState keys).watergirlPos.y ≤ 460) :=
  ⟨(clear_iff _).1 (run_clear keys).1, (clear_iff _).1 (run_clear keys).2⟩

/-- C2. For every current position, that is the position of either character in a
state reachable from the initial state (the positions handleKeyDown passes to
handleMove), and every proposed target (newX, newY), the position returned by
handleMove has a 40x40 box that collides with no obstacle and has both coordinates
between 0 and 460. -/
theorem handleMove_result_clear (s : State) (hr : Reachable s) (newX newY : Int) :
    ((∀ obs ∈ obstacles,
        isColliding (charBox (handleMove s.fireboyPos newX newY)) obs = false) ∧
      0 ≤ (handleMove s.fireboyPos newX newY).x ∧
      (handleMove s.fireboyPos newX newY).x ≤ 460 ∧
      0 ≤ (handleMove s.fireboyPos newX newY).y ∧
      (handleMove s.fireboyPos newX newY).y ≤ 460) ∧
    ((∀ obs ∈ obstacles,
        isColliding (charBox (handleMove s.watergirlPos newX newY)) obs = false) ∧
      0 ≤ (handleMove s.watergirlPos newX newY).x ∧
      (handleMove s.watergirlPos newX newY).x ≤ 460 ∧
      0 ≤ (handleMove s.watergirlPos newX newY).y ∧
      (handleMove s.watergirlPos newX newY).y ≤ 460) := by
  obtain ⟨hA, hB⟩ := reachable_clear_aligned s hr
  exact ⟨handleMove_clear _ newX newY hA.1, handleMove_clear _ newX newY hB.1⟩

theorem handleMove_result_clear_witness :
    Reachable (run initialState (List.replicate 16 "d")) ∧
    (run initialState (List.replicate 16 "d")).watergirlPos = { x := 210, y := 50 } ∧
    handleMove (run initialState (List.replicate 16 "d")).watergirlPos 220 50
      = { x := 210, y := 50 } ∧
    handleMove (run initialState (List.replicate 16 "d")).watergirlPos 500 (-10)
      = { x := 460, y := 0 } ∧
    ((∀ obs ∈ obstacles,
        isColliding
          (charBox (handleMove (run initialState (List.replicate 16 "d")).watergirlPos 220 50))
          obs = false) ∧
      0 ≤ (handleMove (run initialState (List.replicate 16 "d")).watergirlPos 220 50).x ∧
      (handleMove (run initialState (List.replicate 16 "d")).watergirlPos 220 50).x ≤ 460 ∧
      0 ≤ (handleMove (run initialState (List.replicate 16 "d")).watergirlPos 220 50).y ∧
      (handleMove (run initialState (List.replicate 16 "d")).watergirlPos 220 50).y ≤ 460) :=
  ⟨⟨_, rfl⟩, by decide, by decide, by decide,
    (handleMove_result_clear (run initialState (List.replicate 16 "d")) ⟨_, rfl⟩ 220 50).2⟩

/-- C3. Whenever the 40x40 box at the clamped target collides with at least one
obstacle, handleMove returns exactly the current position, for every current
position and target. In particular a 10-unit move to the left from x = 270 at any
y with 0 ≤ y < 150 has a box colliding with the obstacle (250,0,20,150) and is
returned unchanged. -/
theorem rejected_move_returns_pos :
    (∀ (pos : Pos) (newX newY : Int),
      (∃ obs ∈ obstacles, isColliding (charBox (clampedTarget newX newY)) obs = true) →
        handleMove pos newX newY = pos) ∧
    (∀ y : Int, 0 ≤ y → y < 150 →
      isColliding (charBox { x := 270 - moveAmount, y := y })
        { x := 250, y := 0, width := 20, height := 150 } = true ∧
      handleMove { x := 270, y := y } (270 - moveAmount) y = { x := 270, y := y }) := by
  refine ⟨fun pos newX newY h => handleMove_rejected pos newX newY h, ?_⟩
  intro y h0 h150
  have hcol : isColliding (charBox { x := 270 - moveAmount, y := y })
      { x := 250, y := 0, width := 20, height := 150 } = true := by
    simp only [isColliding, charBox, moveAmount, Bool.and_eq_true, decide_eq_true_eq]
    omega
  refine ⟨hcol, handleMove_rejected _ _ _ ⟨_, List.mem_cons_self _ _, ?_⟩⟩
  have hx : clamp (270 - moveAmount) = 270 - moveAmount := by
    unfold clamp moveAmount; omega
  have hy : clamp y = y := by unfold clamp; omega
  simpa only [clampedTarget, hx, hy] using hcol

theorem rejected_move_returns_pos_witness :
    (∃ obs ∈ obstacles, isColliding (charBox (clampedTarget 220 (-30))) obs = true) ∧
    handleMove { x := 210, y := 0 } 220 (-30) = { x := 210, y := 0 } ∧
    handleMove { x := 270, y := 149 } (270 - moveAmount) 149 = { x := 270, y := 149 } :=
  ⟨by decide,
    rejected_move_returns_pos.1 { x := 210, y := 0 } 220 (-30) (by decide),
    (rejected_move_returns_pos.2 149 (by decide) (by decide)).2⟩

/-- C4. Whenever the 40x40 box at (min(max(newX,0),460), min(max(newY,0),460))
collides with no obstacle, handleMove returns exactly that clamped point; a target
with newY < 0 gives y = 0, a target with newX > 460 gives x = 460, and both
returned coordinates lie between 0 and 460. -/
theorem accepted_move_returns_clamped (pos : Pos) (newX newY : Int)
    (h : ∀ obs ∈ obstacles,
      isColliding (charBox { x := min (max newX 0) 460, y := min (max newY 0) 460 }) obs
        = false) :
    handleMove pos newX newY = { x := min (max newX 0) 460, y := min (max newY 0) 460 } ∧
    (newY < 0 → (handleMove pos newX newY).y = 0) ∧
    (460 < newX → (handleMove pos newX newY).x = 460) ∧
    0 ≤ (handleMove pos newX newY).x ∧ (handleMove pos newX newY).x ≤ 460 ∧
    0 ≤ (handleMove pos newX newY).y ∧ (handleMove pos newX newY).y ≤ 460 := by
  have heq : handleMove pos newX newY =
      { x := min (max newX 0) 460, y := min (max newY 0) 460 } :=
    handleMove_accepted pos newX newY h
  rw [heq]
  refine ⟨rfl, ?_, ?_, ?_, ?_, ?_, ?_⟩ <;> simp only <;> omega

theorem accepted_move_returns_clamped_witness :
    (∀ obs ∈ obstacles,
      isColliding (charBox { x := min (max 500 0) 460, y := min (max (-10) 0) 460 }) obs
        = false) ∧
    handleMove { x := 450, y := 0 } 500 (-10) = { x := 460, y := 0 } :=
  ⟨by decide, (accepted_move_returns_clamped { x := 450, y := 0 } 500 (-10) (by decide)).1⟩

/-- C5. In a state whose flag gameWon is true, every key-down event, recognised or
not, leaves the state as it is: both positions are unchanged and the flag stays
true. Hence after any key sequence from such a state the flag is still true. -/
theorem solved_is_terminal (s : State) (h : s.gameWon = true) :
    (∀ key : String, step s key = s) ∧
    (∀ key : String, (step s key).fireboyPos = s.fireboyPos ∧
      (step s key).watergirlPos = s.watergirlPos ∧ (step s key).gameWon = true) ∧
    (∀ keys : List String, (run s keys).gameWon = true) := by
  refine ⟨fun key => step_won s key h, fun key => ?_, fun keys => ?_⟩
  · rw [step_won s key h]; exact ⟨rfl, rfl, h⟩
  · rw [run_won keys s h]; exact h

theorem solved_is_terminal_witness :
    step { fireboyPos := { x := 400, y := 400 }, watergirlPos := { x := 410, y := 400 },
           gameWon := true } "a" =
      { fireboyPos := { x := 400, y := 400 }, watergirlPos := { x := 410, y := 400 },
        gameWon := true } ∧
    (run { fireboyPos := { x := 400, y := 400 }, watergirlPos := { x := 410, y := 400 },
           gameWon := true } ["a", "ArrowUp", "q"]).gameWon = true :=
  ⟨(solved_is_terminal _ rfl).1 "a", (solved_is_terminal _ rfl).2.2 ["a", "ArrowUp", "q"]⟩

/-- C6. In every state reached from the initial state by a finite sequence of
key-down events, each followed by the win check, the flag gameWon is true if and
only if the top-left corners of both characters currently lie in the square from
(400,400) to (410,410). -/
theorem solved_iff_both_in_goal (keys : List String) :
    (run initialState keys).gameWon = true ↔
      (400 ≤ (run initialState keys).fireboyPos.x ∧ (run initialState keys).fireboyPos.x ≤ 410 ∧
        400 ≤ (run initialState keys).fireboyPos.y ∧
        (run initialState keys).fireboyPos.y ≤ 410) ∧
      (400 ≤ (run initialState keys).watergirlPos.x ∧
        (run initialState keys).watergirlPos.x ≤ 410 ∧
        400 ≤ (run initialState keys).watergirlPos.y ∧
        (run initialState keys).watergirlPos.y ≤ 410) := by
  have h := run_flagDerived keys
  unfold flagDerived at h
  rw [h, Bool.and_eq_true, isInsideDoor_iff, isInsideDoor_iff]
  rfl

/-- C7. For every position (x, y), isInsideDoor is true if and only if the whole
40x40 box at (x, y) is contained in the goal rectangle (400,400,50,50), and
equally if and only if 400 ≤ x ≤ 410 and 400 ≤ y ≤ 410. -/
theorem isInsideDoor_iff_box_in_goal (x y : Int) :
    (isInsideDoor { x := x, y := y } = true ↔
      containedIn (charBox { x := x, y := y }) doorArea) ∧
    (isInsideDoor { x := x, y := y } = true ↔
      400 ≤ x ∧ x ≤ 410 ∧ 400 ≤ y ∧ y ≤ 410) := by
  refine ⟨?_, isInsideDoor_iff _⟩
  rw [isInsideDoor_iff]
  simp only [inGoalCorner, containedIn, charBox, doorArea]
  constructor
  · rintro ⟨h1, h2, h3, h4⟩; exact ⟨by omega, by omega, by omega, by omega⟩
  · rintro ⟨h1, h2, h3, h4⟩; exact ⟨by omega, by omega, by omega, by omega⟩

/-- C8, as stated, fails: from the initial state, 35 left-steps and 35 up-steps of
character B, in either order, leave B at (0,0), outside the goal, and the game
unsolved. -/
theorem scenario_left_up_ends_at_origin :
    (run initialState (List.replicate 35 "a" ++ List.replicate 35 "w")).watergirlPos
      = { x := 0, y := 0 } ∧
    (run initialState (List.replicate 35 "a" ++ List.replicate 35 "w")).gameWon = false ∧
    (run initialState (List.replicate 35 "w" ++ List.replicate 35 "a")).watergirlPos
      = { x := 0, y := 0 } ∧
    (run initialState (List.replicate 35 "w" ++ List.replicate 35 "a")).gameWon = false ∧
    isInsideDoor { x := 0, y := 0 } = false := by
  decide

/-- C8, amended. From the initial state (character A at (400,400), character B at
(50,50), unsolved), applying to character B 10 down-steps, then 35 right-steps,
then 25 down-steps of 10 units (35 right-steps and 35 down-steps in all, each
through handleMove) brings B to (400,400); both characters are then inside the
goal (400,400,50,50) and gameWon is true. -/
theorem scenario_right_down_through_gap :
    run initialState
        (List.replicate 10 "s" ++ List.replicate 35 "d" ++ List.replicate 25 "s") =
      { fireboyPos := { x := 400, y := 400 }, watergirlPos := { x := 400, y := 400 },
        gameWon := true } ∧
    isInsideDoor { x := 400, y := 400 } = true ∧
    containedIn (charBox { x := 400, y := 400 }) doorArea := by
  refine ⟨by decide, by decide, ?_⟩
  simp only [containedIn, charBox, doorArea]
  omega

/-- C9. For every unsolved state and every key-down event, at most one position is
changed: ArrowUp, ArrowDown, ArrowLeft, ArrowRight replace only the position of
character A by handleMove(pos, target) with target offset (0,-10), (0,+10),
(-10,0), (+10,0) and leave character B untouched; the keys w, s, a, d (matched
through toLowerCase, as the code does) do the same for character B and leave A
untouched; every other key leaves both positions unchanged. -/
theorem key_dispatch_frame (s : State) (h : s.gameWon = false) :
    ((step s "ArrowUp").fireboyPos =
        handleMove s.fireboyPos s.fireboyPos.x (s.fireboyPos.y - 10) ∧
      (step s "ArrowUp").watergirlPos = s.watergirlPos) ∧
    ((step s "ArrowDown").fireboyPos =
        handleMove s.fireboyPos s.fireboyPos.x (s.fireboyPos.y + 10) ∧
      (step s "ArrowDown").watergirlPos = s.watergirlPos) ∧
    ((step s "ArrowLeft").fireboyPos =
        handleMove s.fireboyPos (s.fireboyPos.x - 10) s.fireboyPos.y ∧
      (step s "ArrowLeft").watergirlPos = s.watergirlPos) ∧
    ((step s "ArrowRight").fireboyPos =
        handleMove s.fireboyPos (s.fireboyPos.x + 10) s.fireboyPos.y ∧
      (step s "ArrowRight").watergirlPos = s.watergirlPos) ∧
    (∀ key : String, toLowerCase key = "w" →
      (step s key).watergirlPos = handleMove s.watergirlPos s.watergirlPos.x (s.watergirlPos.y - 10) ∧
      (step s key).fireboyPos = s.fireboyPos) ∧
    (∀ key : String, toLowerCase key = "s" →
      (step s key).watergirlPos = handleMove s.watergirlPos s.watergirlPos.x (s.watergirlPos.y + 10) ∧
      (step s key).fireboyPos = s.fireboyPos) ∧
    (∀ key : String, toLowerCase key = "a" →
      (step s key).watergirlPos = handleMove s.watergirlPos (s.watergirlPos.x - 10) s.watergirlPos.y ∧
      (step s key).fireboyPos = s.fireboyPos) ∧
    (∀ key : String, toLowerCase key = "d" →
      (step s key).watergirlPos = handleMove s.watergirlPos (s.watergirlPos.x + 10) s.watergirlPos.y ∧
      (step s key).fireboyPos = s.fireboyPos) ∧
    (∀ key : String,
      key ∉ ["ArrowUp", "ArrowDown", "ArrowLeft", "ArrowRight"] →
      toLowerCase key ∉ ["w", "s", "a", "d"] →
      (step s key).fireboyPos = s.fireboyPos ∧ (step s key).watergirlPos = s.watergirlPos) ∧
    (∀ key : String,
      (step s key).fireboyPos = s.fireboyPos ∨ (step s key).watergirlPos = s.watergirlPos) := by
  refine ⟨?_, ?_, ?_, ?_, ?_, ?_, ?_, ?_, ?_, ?_⟩
  · rw [step_fireboyPos, step_watergirlPos, handleKeyDown_arrowUp s h]; exact ⟨rfl, rfl⟩
  · rw [step_fireboyPos, step_watergirlPos, handleKeyDown_arrowDown s h]; exact ⟨rfl, rfl⟩
  · rw [step_fireboyPos, step_watergirlPos, handleKeyDown_arrowLeft s h]; exact ⟨rfl, rfl⟩
  · rw [step_fireboyPos, step_watergirlPos, handleKeyDown_arrowRight s h]; exact ⟨rfl, rfl⟩
  · intro key hk
    rw [step_fireboyPos, step_watergirlPos,
      handleKeyDown_w s key ((toLowerCase_eq_w key).1 hk) h]
    exact ⟨rfl, rfl⟩
  · intro key hk
    rw [step_fireboyPos, step_watergirlPos,
      handleKeyDown_s s key ((toLowerCase_eq_s key).1 hk) h]
    exact ⟨rfl, rfl⟩
  · intro key hk
    rw [step_fireboyPos, step_watergirlPos,
      handleKeyDown_a s key ((toLowerCase_eq_a key).1 hk) h]
    exact ⟨rfl, rfl⟩
  · intro key hk
    rw [step_fireboyPos, step_watergirlPos,
      handleKeyDown_d s key ((toLowerCase_eq_d key).1 hk) h]
    exact ⟨rfl, rfl⟩
  · intro key hA hL
    have hB : key ∉ letterKeys := lowered_not_letter key hL
    rw [step_fireboyPos, step_watergirlPos, handleKeyDown_other s key hA hB]; exact ⟨rfl, rfl⟩
  · intro key
    rw [step_fireboyPos, step_watergirlPos]
    exact handleKeyDown_one_unchanged s key

theorem key_dispatch_frame_witness :
    initialState.gameWon = false ∧
    (step initialState "ArrowLeft").fireboyPos = { x := 390, y := 400 } ∧
    (step initialState "ArrowLeft").watergirlPos = { x := 50, y := 50 } ∧
    (step initialState "w").watergirlPos = { x := 50, y := 40 } ∧
    (step initialState "S").watergirlPos = { x := 50, y := 60 } ∧
    (step initialState "S").fireboyPos = { x := 400, y := 400 } ∧
    (step initialState "Enter").fireboyPos = { x := 400, y := 400 } ∧
    (step initialState "Enter").watergirlPos = { x := 50, y := 50 } :=
  ⟨rfl,
    (key_dispatch_frame initialState rfl).2.2.1.1,
    (key_dispatch_frame initialState rfl).2.2.1.2,
    ((key_dispatch_frame initialState rfl).2.2.2.2.1 "w" (by decide)).1,
    ((key_dispatch_frame initialState rfl).2.2.2.2.2.1 "S" (by decide)).1,
    ((key_dispatch_frame initialState rfl).2.2.2.2.2.1 "S" (by decide)).2,
    ((key_dispatch_frame initialState rfl).2.2.2.2.2.2.2.2.1 "Enter"
      (by decide) (by decide)).1,
    ((key_dispatch_frame initialState rfl).2.2.2.2.2.2.2.2.1 "Enter"
      (by decide) (by decide)).2⟩

/-- C10. For every state, the key events W, A, S, D give exactly the same next
state as w, a, s, d respectively, while the keys of character A are matched
exactly: a key other than the strings ArrowUp, ArrowDown, ArrowLeft, ArrowRight
(for instance arrowup or ARROWUP) never changes the position of A. -/
theorem letters_any_case_arrows_exact :
    (∀ s : State, step s "W" = step s "w" ∧ step s "A" = step s "a" ∧
      step s "S" = step s "s" ∧ step s "D" = step s "d") ∧
    (∀ (s : State) (key : String),
      key ≠ "ArrowUp" → key ≠ "ArrowDown" → key ≠ "ArrowLeft" → key ≠ "ArrowRight" →
      (step s key).fireboyPos = s.fireboyPos) ∧
    (∀ s : State, (step s "arrowup").fireboyPos = s.fireboyPos ∧
      (step s "ARROWUP").fireboyPos = s.fireboyPos ∧
      (step s "arrowup").watergirlPos = s.watergirlPos ∧
      (step s "ARROWUP").watergirlPos = s.watergirlPos) := by
  refine ⟨fun s => ?_, fun s key h1 h2 h3 h4 => ?_, fun s => ?_⟩
  · have hk : ∀ lower upper : String,
        (∀ t : State, t.gameWon = false → handleKeyDown t upper = handleKeyDown t lower) →
        step s upper = step s lower := by
      intro lower upper hlu
      unfold step
      by_cases hw : s.gameWon = true
      · rw [handleKeyDown_won s upper hw, handleKeyDown_won s lower hw]
      · rw [hlu s (by simpa using hw)]
    refine ⟨hk "w" "W" fun t ht => ?_, hk "a" "A" fun t ht => ?_,
      hk "s" "S" fun t ht => ?_, hk "d" "D" fun t ht => ?_⟩
    · rw [handleKeyDown_w t "W" (Or.inr rfl) ht, handleKeyDown_w t "w" (Or.inl rfl) ht]
    · rw [handleKeyDown_a t "A" (Or.inr rfl) ht, handleKeyDown_a t "a" (Or.inl rfl) ht]
    · rw [handleKeyDown_s t "S" (Or.inr rfl) ht, handleKeyDown_s t "s" (Or.inl rfl) ht]
    · rw [handleKeyDown_d t "D" (Or.inr rfl) ht, handleKeyDown_d t "d" (Or.inl rfl) ht]
  · rw [step_fireboyPos]
    apply handleKeyDown_fireboyPos_of_not_arrow
    simp only [arrowKeys, List.mem_cons, List.mem_singleton, List.not_mem_nil, not_or,
      or_false]
    exact ⟨h1, h2, h3, h4⟩
  · rw [step_fireboyPos, step_fireboyPos, step_watergirlPos, step_watergirlPos,
      handleKeyDown_other s "arrowup" (by decide) (by decide),
      handleKeyDown_other s "ARROWUP" (by decide) (by decide)]
    exact ⟨rfl, rfl, rfl, rfl⟩

theorem letters_any_case_arrows_exact_witness :
    step initialState "D" = step initialState "d" ∧
    ("Arrowup" ≠ "ArrowUp" ∧ "Arrowup" ≠ "ArrowDown" ∧ "Arrowup" ≠ "ArrowLeft" ∧
      "Arrowup" ≠ "ArrowRight") ∧
    (step initialState "Arrowup").fireboyPos = { x := 400, y := 400 } :=
  ⟨(letters_any_case_arrows_exact.1 initialState).2.2.2,
    by decide,
    letters_any_case_arrows_exact.2.1 initialState "Arrowup"
      (by decide) (by decide) (by decide) (by decide)⟩

/-- C11. In every state reachable from the initial state all four coordinates
are multiples of 10, and in such a state, while unsolved, every recognised key-down
event (an arrow key for character A; w, s, a, d in either case for character B)
either leaves the position of the addressed character unchanged or displaces it by
exactly 10 along one axis in the direction of the key, the other coordinate staying
the same. -/
theorem no_partial_moves (s : State) (hr : Reachable s) :
    (s.fireboyPos.x % 10 = 0 ∧ s.fireboyPos.y % 10 = 0 ∧
      s.watergirlPos.x % 10 = 0 ∧ s.watergirlPos.y % 10 = 0) ∧
    (s.gameWon = false →
      ((step s "ArrowUp").fireboyPos = s.fireboyPos ∨
        movedBy s.fireboyPos (step s "ArrowUp").fireboyPos 0 (-10)) ∧
      ((step s "ArrowDown").fireboyPos = s.fireboyPos ∨
        movedBy s.fireboyPos (step s "ArrowDown").fireboyPos 0 10) ∧
      ((step s "ArrowLeft").fireboyPos = s.fireboyPos ∨
        movedBy s.fireboyPos (step s "ArrowLeft").fireboyPos (-10) 0) ∧
      ((step s "ArrowRight").fireboyPos = s.fireboyPos ∨
        movedBy s.fireboyPos (step s "ArrowRight").fireboyPos 10 0) ∧
      (∀ key : String, key = "w" ∨ key = "W" →
        (step s key).watergirlPos = s.watergirlPos ∨
        movedBy s.watergirlPos (step s key).watergirlPos 0 (-10)) ∧
      (∀ key : String, key = "s" ∨ key = "S" →
        (step s key).watergirlPos = s.watergirlPos ∨
        movedBy s.watergirlPos (step s key).watergirlPos 0 10) ∧
      (∀ key : String, key = "a" ∨ key = "A" →
        (step s key).watergirlPos = s.watergirlPos ∨
        movedBy s.watergirlPos (step s key).watergirlPos (-10) 0) ∧
      (∀ key : String, key = "d" ∨ key = "D" →
        (step s key).watergirlPos = s.watergirlPos ∨
        movedBy s.watergirlPos (step s key).watergirlPos 10 0)) := by
  obtain ⟨hA, hB⟩ := reachable_clear_aligned s hr
  refine ⟨⟨hA.2.1, hA.2.2, hB.2.1, hB.2.2⟩, fun hw => ⟨?_, ?_, ?_, ?_, ?_, ?_, ?_, ?_⟩⟩
  · rw [step_fireboyPos, handleKeyDown_arrowUp s hw]
    exact handleMove_stay_or_moved _ hA.1 hA.2 _ _ _ _ (by omega)
      (by unfold moveAmount; omega) (Or.inl ⟨rfl, Or.inl rfl⟩)
  · rw [step_fireboyPos, handleKeyDown_arrowDown s hw]
    exact handleMove_stay_or_moved _ hA.1 hA.2 _ _ _ _ (by omega)
      (by unfold moveAmount; omega) (Or.inl ⟨rfl, Or.inr rfl⟩)
  · rw [step_fireboyPos, handleKeyDown_arrowLeft s hw]
    exact handleMove_stay_or_moved _ hA.1 hA.2 _ _ _ _ (by unfold moveAmount; omega)
      (by omega) (Or.inr ⟨rfl, Or.inl rfl⟩)
  · rw [step_fireboyPos, handleKeyDown_arrowRight s hw]
    exact handleMove_stay_or_moved _ hA.1 hA.2 _ _ _ _ (by unfold moveAmount; omega)
      (by omega) (Or.inr ⟨rfl, Or.inr rfl⟩)
  · intro key hk
    rw [step_watergirlPos, handleKeyDown_w s key hk hw]
    exact handleMove_stay_or_moved _ hB.1 hB.2 _ _ _ _ (by omega)
      (by unfold moveAmount; omega) (Or.inl ⟨rfl, Or.inl rfl⟩)
  · intro key hk
    rw [step_watergirlPos, handleKeyDown_s s key hk hw]
    exact handleMove_stay_or_moved _ hB.1 hB.2 _ _ _ _ (by omega)
      (by unfold moveAmount; omega) (Or.inl ⟨rfl, Or.inr rfl⟩)
  · intro key hk
    rw [step_watergirlPos, handleKeyDown_a s key hk hw]
    exact handleMove_stay_or_moved _ hB.1 hB.2 _ _ _ _ (by unfold moveAmount; omega)
      (by omega) (Or.inr ⟨rfl, Or.inl rfl⟩)
  · intro key hk
    rw [step_watergirlPos, handleKeyDown_d s key hk hw]
    exact handleMove_stay_or_moved _ hB.1 hB.2 _ _ _ _ (by unfold moveAmount; omega)
      (by omega) (Or.inr ⟨rfl, Or.inr rfl⟩)

theorem no_partial_moves_witness :
    Reachable (run initialState ["w", "ArrowDown"]) ∧
    (run initialState ["w", "ArrowDown"]).gameWon = false ∧
    (run initialState ["w", "ArrowDown"]).fireboyPos.y % 10 = 0 ∧
    ((step (run initialState ["w", "ArrowDown"]) "ArrowLeft").fireboyPos =
        (run initialState ["w", "ArrowDown"]).fireboyPos ∨
      movedBy (run initialState ["w", "ArrowDown"]).fireboyPos
        (step (run initialState ["w", "ArrowDown"]) "ArrowLeft").fireboyPos (-10) 0) :=
  ⟨⟨_, rfl⟩, by decide,
    (no_partial_moves (run initialState ["w", "ArrowDown"]) ⟨_, rfl⟩).1.2.1,
    ((no_partial_moves (run initialState ["w", "ArrowDown"]) ⟨_, rfl⟩).2 (by decide)).2.2.1⟩

/-- C12. The puzzle is solvable: some finite sequence of key-down events takes the
initial state to a state with gameWon true. One such sequence moves character B
down to y = 150, right through the gap of the barrier to x = 400, then down to
y = 400. -/
theorem puzzle_is_solvable :
    (∃ keys : List String, (run initialState keys).gameWon = true) ∧
    (run initialState (List.replicate 10 "s")).watergirlPos = { x := 50, y := 150 } ∧
    (run initialState (List.replicate 10 "s" ++ List.replicate 35 "d")).watergirlPos
      = { x := 400, y := 150 } ∧
    (run initialState
      (List.replicate 10 "s" ++ List.replicate 35 "d" ++ List.replicate 25 "s")).watergirlPos
      = { x := 400, y := 400 } ∧
    (run initialState
      (List.replicate 10 "s" ++ List.replicate 35 "d" ++ List.replicate 25 "s")).gameWon
      = true := by
  refine ⟨⟨List.replicate 10 "s" ++ List.replicate 35 "d" ++ List.replicate 25 "s", ?_⟩,
    ?_, ?_, ?_, ?_⟩ <;> decide

/-- C13. In every state reachable from the initial state, a character whose x
coordinate satisfies 210 < x < 270 has y equal to 150 or 160, so that its box lies
within the vertical gap from 150 to 200 between the two obstacles. -/
theorem barrier_crossed_through_gap (s : State) (hr : Reachable s) :
    (210 < s.fireboyPos.x → s.fireboyPos.x < 270 →
      (s.fireboyPos.y = 150 ∨ s.fireboyPos.y = 160) ∧
      150 ≤ s.fireboyPos.y ∧ s.fireboyPos.y + 40 ≤ 200) ∧
    (210 < s.watergirlPos.x → s.watergirlPos.x < 270 →
      (s.watergirlPos.y = 150 ∨ s.watergirlPos.y = 160) ∧
      150 ≤ s.watergirlPos.y ∧ s.watergirlPos.y + 40 ≤ 200) := by
  obtain ⟨hA, hB⟩ := reachable_clear_aligned s hr
  exact ⟨clear_in_barrier_column _ hA.1 hA.2, clear_in_barrier_column _ hB.1 hB.2⟩

theorem barrier_crossed_through_gap_witness :
    Reachable (run initialState (List.replicate 11 "s" ++ List.replicate 17 "d")) ∧
    (run initialState (List.replicate 11 "s" ++ List.replicate 17 "d")).watergirlPos.x
      = 220 ∧
    (run initialState (List.replicate 11 "s" ++ List.replicate 17 "d")).watergirlPos.y
      = 160 ∧
    (((run initialState (List.replicate 11 "s" ++ List.replicate 17 "d")).watergirlPos.y
        = 150 ∨
      (run initialState (List.replicate 11 "s" ++ List.replicate 17 "d")).watergirlPos.y
        = 160) ∧
      150 ≤
        (run initialState (List.replicate 11 "s" ++ List.replicate 17 "d")).watergirlPos.y ∧
      (run initialState (List.replicate 11 "s" ++ List.replicate 17 "d")).watergirlPos.y + 40
        ≤ 200) :=
  ⟨⟨_, rfl⟩, by decide, by decide,
    (barrier_crossed_through_gap
      (run initialState (List.replicate 11 "s" ++ List.replicate 17 "d")) ⟨_, rfl⟩).2
      (by decide) (by decide)⟩

/-- C14. The function isColliding is symmetric in its two rectangles, and it is
false whenever the rectangles are separated or merely touch on an axis
(r1.x + r1.width ≤ r2.x, or r2.x + r2.width ≤ r1.x, or the same on y). Hence a
character may rest flush against the barrier: handleMove accepts a target with
x = 210 and a target with x = 270, whatever the current position and the target
y. -/
theorem isColliding_symmetric_strict :
    (∀ r1 r2 : Rect, isColliding r1 r2 = isColliding r2 r1) ∧
    (∀ r1 r2 : Rect,
      (r1.x + r1.width ≤ r2.x ∨ r2.x + r2.width ≤ r1.x ∨
        r1.y + r1.height ≤ r2.y ∨ r2.y + r2.height ≤ r1.y) →
      isColliding r1 r2 = false) ∧
    (∀ (pos : Pos) (newY : Int),
      handleMove pos 210 newY = { x := 210, y := min (max newY 0) 460 } ∧
      handleMove pos 270 newY = { x := 270, y := min (max newY 0) 460 }) := by
  refine ⟨isColliding_comm, isColliding_false_of_apart, fun pos newY => ⟨?_, ?_⟩⟩
  · rw [handleMove_accepted pos 210 newY (beside_barrier_free 210 newY (Or.inl rfl))]
    rfl
  · rw [handleMove_accepted pos 270 newY (beside_barrier_free 270 newY (Or.inr rfl))]
    rfl

theorem isColliding_symmetric_strict_witness :
    isColliding { x := 210, y := 50, width := 40, height := 40 }
        { x := 250, y := 0, width := 20, height := 150 } =
      isColliding { x := 250, y := 0, width := 20, height := 150 }
        { x := 210, y := 50, width := 40, height := 40 } ∧
    (210 : Int) + 40 ≤ 250 ∧
    isColliding { x := 210, y := 50, width := 40, height := 40 }
      { x := 250, y := 0, width := 20, height := 150 } = false ∧
    handleMove { x := 200, y := 50 } 210 50 = { x := 210, y := 50 } ∧
    handleMove { x := 280, y := 300 } 270 300 = { x := 270, y := 300 } :=
  ⟨isColliding_symmetric_strict.1 _ _, by decide,
    isColliding_symmetric_strict.2.1 { x := 210, y := 50, width := 40, height := 40 }
      { x := 250, y := 0, width := 20, height := 150 } (Or.inl (by decide)),
    (isColliding_symmetric_strict.2.2 { x := 200, y := 50 } 50).1,
    (isColliding_symmetric_strict.2.2 { x := 280, y := 300 } 300).2⟩

end Game
